import Mathlib

/-!
Shallow embedding of `merge_arkk_data.py` (ARKK holdings merge tool).

The script maintains a wide constituents table (`arkk_constituents.csv`):
one row per ticker, one column per observation date (`YYYYMMDD`), plus the
leading `ticker` column.  For each `arkk_holdings_*.csv` snapshot file it
extracts the snapshot date from the first data row, and folds the
snapshot's (ticker, weight) pairs into the table as a new date column.

Modelling conventions:
* a pandas cell is `Option ℚ`; `none` models NaN/null, `some q` a number
  (floating point is modelled by exact rationals; `float('nan')`/`inf`
  weight strings are outside the model);
* a DataFrame column of strings is a `List`: row order is significant;
* Python's `set` iteration order (line 110 of the source) is unspecified;
  the model fixes membership-equivalent `List.dedup` order — no claim
  below depends on row order;
* file-system reads are parameters: a holdings file is given by its first
  data row's `date` field, its header flags, and its (ticker, weight)
  rows; the constituents CSV is given as a parsed `Table` (or as the
  `missing` / `noTickerCol` failure shapes checked at lines 44 and 53).
-/

namespace ArkkMerge

/-- A pandas cell: `none` is NaN/null, `some q` a numeric value. -/
abbrev Cell := Option ℚ

/-- The wide constituents table: `cols` are the column labels after the
leading `ticker` column (date columns, in file order), and each row is a
ticker together with its cells, positionally aligned with `cols`. -/
structure Table where
  cols : List String
  rows : List (String × List Cell)
deriving DecidableEq, Repr

/-- The tickers of the table, in row order (the `ticker` column). -/
def Table.tickers (t : Table) : List String :=
  t.rows.map Prod.fst

/-- Look up a cell: `none` when the row or column is absent, `some none`
when the cell exists but is NaN, `some (some q)` a numeric cell. -/
def colVal (cols : List String) (cells : List Cell) (c : String) : Option Cell :=
  ((cols.zip cells).find? (fun p => p.1 == c)).map Prod.snd

/-- Value of the table at ticker `tk`, column `c` (first matching row). -/
def Table.value (t : Table) (tk c : String) : Option Cell :=
  (t.rows.find? (fun r => r.1 == tk)).bind fun r => colVal t.cols r.2 c

/-- Rectangularity check: every cell of every row is non-null. -/
def Table.noNulls (t : Table) : Bool :=
  t.rows.all fun r => r.2.all Option.isSome

/-- One snapshot file `arkk_holdings_*.csv`, as the merge script reads it:
`dateField` is the `date` value of the first data row (`none` when the
`date` column or a first data row is absent), `hasTicker` / `hasWeight`
record whether the `ticker` and `weight (%)` headers are present, and
`rows` are the (ticker, raw weight string) pairs, a `none` ticker being a
NaN ticker cell. -/
structure HoldingsFile where
  dateField : Option String
  hasTicker : Bool
  hasWeight : Bool
  rows : List (Option String × String)
deriving DecidableEq, Repr

/-- Split a character list at every occurrence of `sep` (the semantics of
`String.splitOn` with a one-character separator). -/
def splitOnChar (sep : Char) : List Char → List (List Char)
  | [] => [[]]
  | c :: cs =>
    let r := splitOnChar sep cs
    if c == sep then [] :: r
    else
      match r with
      | [] => [[c]]
      | g :: gs => (c :: g) :: gs

/-- Decimal value of a digit list (most significant first). -/
def digitsToNat (cs : List Char) : ℕ :=
  cs.foldl (fun a c => 10 * a + (c.toNat - 48)) 0

/-- Parse a non-empty all-digit character list (the semantics of
`String.toNat?`). -/
def charsToNat? (cs : List Char) : Option ℕ :=
  if cs ≠ [] ∧ cs.all Char.isDigit then some (digitsToNat cs) else none

/-- Strip leading and trailing whitespace (the semantics of
`String.trim`, and of CPython `float`'s whitespace tolerance). -/
def trimChars (cs : List Char) : List Char :=
  ((cs.dropWhile Char.isWhitespace).reverse.dropWhile Char.isWhitespace).reverse

/-- Gregorian leap-year rule, as `datetime` validates dates. -/
def isLeapYear (y : ℕ) : Bool :=
  (y % 4 == 0 && y % 100 != 0) || (y % 400 == 0)

/-- Days in month `m` of year `y` (`datetime` day-of-month validation). -/
def daysInMonth (y m : ℕ) : ℕ :=
  if m == 2 then (if isLeapYear y then 29 else 28)
  else if m == 4 || m == 6 || m == 9 || m == 11 then 30
  else 31

/-- Model of `datetime.strptime(s, '%m/%d/%Y')` (line 29): `%m` and `%d`
match one or two digits, `%Y` exactly four digits (CPython's `_strptime`
patterns), the whole string must be consumed, and `datetime` validates
month, day-of-month and `year ≥ 1`.  Returns `(month, day, year)`. -/
def parseMMDDYYYY (s : String) : Option (ℕ × ℕ × ℕ) :=
  match splitOnChar '/' s.toList with
  | [ms, ds, ys] =>
    if 1 ≤ ms.length ∧ ms.length ≤ 2 ∧ 1 ≤ ds.length ∧ ds.length ≤ 2 ∧ ys.length = 4 then
      match charsToNat? ms, charsToNat? ds, charsToNat? ys with
      | some m, some d, some y =>
        if 1 ≤ m ∧ m ≤ 12 ∧ 1 ≤ d ∧ d ≤ daysInMonth y m ∧ 1 ≤ y then
          some (m, d, y)
        else none
      | _, _, _ => none
    else none
  | _ => none

/-- Zero-pad a month or day number to two digits (`strftime` `%m`/`%d`). -/
def pad2 (n : ℕ) : String :=
  if n < 10 then "0" ++ Nat.repr n else Nat.repr n

/-- Model of `date_obj.strftime('%Y%m%d')` (line 32): glibc prints `%Y`
as the unpadded decimal year, `%m` and `%d` zero-padded to two digits. -/
def formatYYYYMMDD (m d y : ℕ) : String :=
  Nat.repr y ++ pad2 m ++ pad2 d

/-- Model of `extract_date_from_holdings` (lines 16–36): read the first
data row's `date` field; a missing `date` column, a missing first row or
a `strptime` failure is caught and reported as `None`. -/
def extract_date_from_holdings (f : HoldingsFile) : Option String :=
  match f.dateField with
  | none => none
  | some s =>
    match parseMMDDYYYY s with
    | none => none
    | some (m, d, y) => some (formatYYYYMMDD m d y)

/-- Python `str.rstrip('%')` (line 98): drop every trailing `%`. -/
def rstripPercent (cs : List Char) : List Char :=
  (cs.reverse.dropWhile (fun c => c == '%')).reverse

/-- Model of CPython `float(s)` (line 98) on its decimal-notation subset:
optional surrounding whitespace, optional sign, digits with an optional
single decimal point (`"1."`, `".5"` are valid, `"."` and `""` are not).
The value is the exact rational `±(int * 10^k + frac) / 10^k`.  Exponent
forms, underscores and the `nan`/`inf` words are floating-point features
outside the rational model. -/
def pyFloat (s : List Char) : Option ℚ :=
  let u := trimChars s
  let sb : ℤ × List Char :=
    match u with
    | '-' :: rest => (-1, rest)
    | '+' :: rest => (1, rest)
    | _ => (1, u)
  match splitOnChar '.' sb.2 with
  | [ip] => (charsToNat? ip).map fun n => mkRat (sb.1 * n) 1
  | [ip, fp] =>
    if ip.isEmpty then
      (charsToNat? fp).map fun fr => mkRat (sb.1 * fr) (10 ^ fp.length)
    else if fp.isEmpty then
      (charsToNat? ip).map fun n => mkRat (sb.1 * n) 1
    else
      match charsToNat? ip, charsToNat? fp with
      | some i, some fr => some (mkRat (sb.1 * (i * 10 ^ fp.length + fr)) (10 ^ fp.length))
      | _, _ => none
  | _ => none

/-- Weight normalization of line 98: strip trailing `%`, convert to
float; `none` models the `ValueError` raised by `astype(float)`. -/
def parseWeight (s : String) : Option ℚ :=
  pyFloat (rstripPercent s.toList)

/-- Lines 94–95: keep the (ticker, weight) pairs whose ticker is not NaN
(`df_weights[df_weights['ticker'].notna()]`). -/
def dropNaNTickers (rows : List (Option String × String)) : List (String × String) :=
  rows.filterMap fun r => r.1.map fun tk => (tk, r.2)

/-- Line 98 over the whole column: parse every weight; `none` when any
single weight string fails to parse (the `astype(float)` exception). -/
def parseWeights (rows : List (String × String)) : Option (List (String × ℚ)) :=
  rows.mapM fun r => (parseWeight r.2).map fun q => (r.1, q)

/-- Lines 103–104: `set(df_weights['ticker']) - existing_tickers`.  The
model fixes `dedup` order for the unspecified Python `set` iteration. -/
def newTickers (t : Table) (ws : List (String × ℚ)) : List String :=
  ((ws.map Prod.fst).dedup).filter fun tk => !(t.tickers.contains tk)

/-- Lines 106–120: append one row per new ticker, with `0` in every
pre-existing column and in the new date column.  `pd.concat` aligns
columns: the old rows, which lack the new rows' `d` column, receive NaN
there (this happens exactly when there is at least one new ticker). -/
def addNewRows (t : Table) (d : String) (nts : List String) : Table :=
  if nts.isEmpty then t
  else
    { cols := t.cols ++ [d],
      rows := t.rows.map (fun r => (r.1, r.2 ++ [none]))
        ++ nts.map fun tk => (tk, List.replicate t.cols.length (some (0 : ℚ)) ++ [some 0]) }

/-- Lines 127–129: `if date_col not in df_constituents_indexed.columns:`
initialize the new column with `0` for every row.  When `addNewRows`
already created the column the guard fails and nothing is initialized. -/
def initDateCol (t : Table) (d : String) : Table :=
  if t.cols.contains d then t
  else
    { cols := t.cols ++ [d],
      rows := t.rows.map fun r => (r.1, r.2 ++ [some (0 : ℚ)]) }

/-- One row under `DataFrame.update` (line 132): rows whose ticker occurs
in the snapshot get the snapshot weight in column `d`; others are kept.
Only called with unique snapshot tickers (see `mergeCore`). -/
def updRow (cols : List String) (d : String) (ws : List (String × ℚ))
    (r : String × List Cell) : String × List Cell :=
  match ws.find? (fun w => w.1 == r.1) with
  | none => r
  | some w => (r.1, (cols.zip r.2).map fun p => if p.1 == d then some w.2 else p.2)

/-- Lines 122–135: `update` then `reset_index` — overwrite column `d`
with the snapshot weights, aligned on ticker. -/
def updateCol (t : Table) (d : String) (ws : List (String × ℚ)) : Table :=
  { cols := t.cols, rows := t.rows.map (updRow t.cols d ws) }

/-- Outcome of one iteration of the per-file loop (lines 70–142). -/
inductive StepResult where
  /-- `continue` was taken: the table and `changes_made` are untouched. -/
  | skipped : StepResult
  /-- The snapshot was folded in; `changes_made` becomes `True`. -/
  | merged : Table → StepResult
  /-- An uncaught exception: it propagates out of `merge_holdings_data`. -/
  | raised : StepResult
deriving DecidableEq, Repr

/-- The merged table of a step, when the step merged. -/
def mergedTable : StepResult → Option Table
  | .merged t => some t
  | _ => none

/-- Lines 98–142 after the guards: a weight that fails `float()` raises
(line 98); `DataFrame.update` raises on a duplicate index in its
argument, so duplicated snapshot tickers raise at line 132; otherwise the
new rows are appended, the column initialized and updated. -/
def mergeCore (t : Table) (d : String) (ws : List (String × ℚ)) : StepResult :=
  if (ws.map Prod.fst).Nodup then
    .merged (updateCol (initDateCol (addNewRows t d (newTickers t ws)) d) d ws)
  else .raised

/-- One iteration of the loop over holdings files (lines 70–142). -/
def processFile (t : Table) (f : HoldingsFile) : StepResult :=
  match extract_date_from_holdings f with
  | none => .skipped
  | some d =>
    if ("ticker" :: t.cols).contains d then .skipped
    else if !(f.hasTicker && f.hasWeight) then .skipped
    else
      match parseWeights (dropNaNTickers f.rows) with
      | none => .raised
      | some ws => mergeCore t d ws

/-- Shape of the constituents CSV on disk, as checked at lines 44–55. -/
inductive TableFile where
  | missing : TableFile
  | noTickerCol : TableFile
  | ok : Table → TableFile
deriving DecidableEq, Repr

/-- Outcome of a whole run of the script (`merge_holdings_data` plus the
`__main__` wrapper, lines 38–163). -/
inductive RunOutcome where
  /-- An exception reached the `__main__` handler: `exit(1)`, nothing
  written to disk (line 146 was never reached). -/
  | fatal : RunOutcome
  /-- `arkk_constituents.csv` absent (line 44): `return False`. -/
  | missingTable : RunOutcome
  /-- No `ticker` column in the table (line 53): `return False`. -/
  | badTable : RunOutcome
  /-- No `arkk_holdings_*.csv` files (line 60): `return False`. -/
  | noFiles : RunOutcome
  /-- Loop finished with `changes_made` False: nothing written,
  `return False` (lines 151–153). -/
  | noChanges : Table → RunOutcome
  /-- Loop finished with changes: table written, `return True`. -/
  | saved : Table → RunOutcome
deriving DecidableEq, Repr

/-- Whether the run wrote the table and returned `True`. -/
def RunOutcome.isSaved : RunOutcome → Bool
  | .saved _ => true
  | _ => false

/-- The `exit(0 if success else 1)` / exception `exit(1)` contract of the
`__main__` block (lines 155–163). -/
def exitCode : RunOutcome → ℕ
  | .saved _ => 0
  | _ => 1

/-- The per-file loop with the `changes_made` accumulator (lines 67–142)
and the final save decision (lines 144–153).  An exception in any file
aborts the whole run. -/
def processBatch (t : Table) (changed : Bool) : List HoldingsFile → RunOutcome
  | [] => if changed then .saved t else .noChanges t
  | f :: fs =>
    match processFile t f with
    | .skipped => processBatch t changed fs
    | .merged t' => processBatch t' true fs
    | .raised => .fatal

/-- Whole-run model of `merge_holdings_data` (lines 38–153): check the
table file, check the `ticker` column, glob the holdings files (the
`files` parameter is the `sorted(...)` file list), then run the loop. -/
def merge_holdings_data (tf : TableFile) (files : List HoldingsFile) : RunOutcome :=
  match tf with
  | .missing => .missingTable
  | .noTickerCol => .badTable
  | .ok t => if files.isEmpty then .noFiles else processBatch t false files

/-! ### Concrete instances used by the claim checks -/

/-- Example table: tickers AAPL and MSFT, one date column `20250101`. -/
def tAM : Table :=
  ⟨["20250101"], [("AAPL", [some 5]), ("MSFT", [some 3])]⟩

/-- Snapshot dated `01/02/2025` reporting AAPL and the new ticker TSLA. -/
def fNew : HoldingsFile :=
  ⟨some "01/02/2025", true, true, [(some "AAPL", "4.5"), (some "TSLA", "2.0")]⟩

/-- Snapshot dated `01/02/2025` reporting only AAPL (no new tickers). -/
def fOld : HoldingsFile :=
  ⟨some "01/02/2025", true, true, [(some "AAPL", "4.5")]⟩

/-- The table produced by merging `fOld` into `tAM`. -/
def tAM' : Table :=
  ⟨["20250101", "20250102"],
    [("AAPL", [some 5, some (mkRat 9 2)]), ("MSFT", [some 3, some 0])]⟩

/-- The table produced by merging `fNew` into `tAM` (MSFT's new cell is
NaN because the zero initialization of lines 127–129 was skipped). -/
def tNew' : Table :=
  ⟨["20250101", "20250102"],
    [("AAPL", [some 5, some (mkRat 9 2)]), ("MSFT", [some 3, none]),
      ("TSLA", [some 0, some 2])]⟩

/-- Snapshot with a malformed weight string. -/
def fBad : HoldingsFile :=
  ⟨some "01/02/2025", true, true, [(some "AAPL", "abc")]⟩

/-- Snapshot reporting the same ticker twice. -/
def fDup : HoldingsFile :=
  ⟨some "01/02/2025", true, true, [(some "AMD", "1.0"), (some "AMD", "2.0")]⟩

/-- Snapshot whose date column `20250101` is already present in `tAM`. -/
def fSame : HoldingsFile :=
  ⟨some "01/01/2025", true, true, [(some "AAPL", "4.5")]⟩

/-- Snapshot with no extractable date (`date` column absent). -/
def fNoDate : HoldingsFile :=
  ⟨none, true, true, [(some "AAPL", "4.5")]⟩

/-! ### Helper lemmas: row lookup -/

theorem find?_map_key (tk : String) (h : String × List Cell → String × List Cell)
    (hf : ∀ r, (h r).1 = r.1) :
    ∀ rows : List (String × List Cell),
      (rows.map h).find? (fun r => r.1 == tk) = (rows.find? (fun r => r.1 == tk)).map h
  | [] => rfl
  | r :: rs => by
    simp only [List.map_cons, List.find?_cons, hf r]
    cases hb : (r.1 == tk)
    · simpa using find?_map_key tk h hf rs
    · rfl

theorem find?_none_of_not_mem (tk : String) (rows : List (String × List Cell))
    (h : tk ∉ rows.map Prod.fst) :
    rows.find? (fun r => r.1 == tk) = none := by
  rw [List.find?_eq_none]
  intro x hx hbeq
  exact h (List.mem_map.mpr ⟨x, hx, by simpa using hbeq⟩)

theorem find?_of_mem_key (tk : String) (rows : List (String × List Cell))
    (h : tk ∈ rows.map Prod.fst) :
    ∃ r, rows.find? (fun r => r.1 == tk) = some r ∧ r ∈ rows ∧ r.1 = tk := by
  induction rows with
  | nil => simp at h
  | cons r rs ih =>
    by_cases hr : r.1 = tk
    · exact ⟨r, by simp [List.find?_cons, hr], List.mem_cons_self r rs, hr⟩
    · have h' : tk ∈ rs.map Prod.fst := by
        rcases List.mem_map.mp h with ⟨x, hx, hfst⟩
        rcases List.mem_cons.mp hx with rfl | hx'
        · exact absurd hfst hr
        · exact List.mem_map.mpr ⟨x, hx', hfst⟩
      rcases ih h' with ⟨w, hw1, hw2, hw3⟩
      refine ⟨w, ?_, List.mem_cons_of_mem _ hw2, hw3⟩
      simpa [List.find?_cons, show (r.1 == tk) = false by simpa using hr] using hw1

theorem find?_eq_of_nodup (ws : List (String × ℚ)) (tk : String) (q : ℚ)
    (hnd : (ws.map Prod.fst).Nodup) (hmem : (tk, q) ∈ ws) :
    ws.find? (fun w => w.1 == tk) = some (tk, q) := by
  induction ws with
  | nil => simp at hmem
  | cons w ws ih =>
    rw [List.map_cons, List.nodup_cons] at hnd
    rcases List.mem_cons.mp hmem with rfl | hmem'
    · simp [List.find?_cons]
    · have hne : w.1 ≠ tk := by
        intro he
        exact hnd.1 (he ▸ List.mem_map.mpr ⟨(tk, q), hmem', rfl⟩)
      simpa [List.find?_cons, show (w.1 == tk) = false by simpa using hne] using
        ih hnd.2 hmem'

theorem find?_map_single (nts : List String) (G : String → String × List Cell)
    (hG : ∀ s, (G s).1 = s) (tk : String) (htk : tk ∈ nts) :
    (nts.map G).find? (fun r => r.1 == tk) = some (G tk) := by
  induction nts with
  | nil => simp at htk
  | cons s ss ih =>
    by_cases hs : s = tk
    · subst hs; simp [List.find?_cons, hG s]
    · rcases List.mem_cons.mp htk with rfl | htk'
      · exact absurd rfl hs
      · simpa [List.find?_cons, hG s, show (s == tk) = false by simpa using hs] using ih htk'

/-! ### Helper lemmas: cell lookup in a row -/

theorem colVal_nil_cols (m : List Cell) (c : String) : colVal [] m c = none := rfl

theorem colVal_nil_cells (cols : List String) (c : String) : colVal cols [] c = none := by
  cases cols <;> rfl

theorem colVal_cons (a : String) (b : Cell) (l : List String) (m : List Cell) (c : String) :
    colVal (a :: l) (b :: m) c = if a == c then some b else colVal l m c := by
  unfold colVal
  simp only [List.zip_cons_cons, List.find?_cons]
  cases hac : (a == c) <;> simp

theorem colVal_append_left (l₁ l₂ : List String) (m₁ m₂ : List Cell) (c : String)
    (hlen : l₁.length = m₁.length) (hc : c ∈ l₁) :
    colVal (l₁ ++ l₂) (m₁ ++ m₂) c = colVal l₁ m₁ c := by
  induction l₁ generalizing m₁ with
  | nil => simp at hc
  | cons a l ih =>
    cases m₁ with
    | nil => simp at hlen
    | cons b m =>
      simp only [List.cons_append, colVal_cons]
      by_cases hac : a = c
      · simp [hac]
      · have hcl : c ∈ l := by
          rcases List.mem_cons.mp hc with rfl | hcl
          · exact absurd rfl hac
          · exact hcl
        rw [if_neg (by simpa using hac), if_neg (by simpa using hac)]
        exact ih m (by simpa using hlen) hcl

theorem colVal_snoc_self (l : List String) (m : List Cell) (d : String) (x : Cell)
    (hlen : l.length = m.length) (hd : d ∉ l) :
    colVal (l ++ [d]) (m ++ [x]) d = some x := by
  induction l generalizing m with
  | nil =>
    cases m with
    | nil => simp [colVal_cons]
    | cons b mm => simp at hlen
  | cons a l ih =>
    cases m with
    | nil => simp at hlen
    | cons b mm =>
      have hne : a ≠ d := fun h => hd (h ▸ List.mem_cons_self a l)
      simp only [List.cons_append, colVal_cons]
      rw [if_neg (by simpa using hne)]
      exact ih mm (by simpa using hlen) (fun h => hd (List.mem_cons_of_mem _ h))

theorem colVal_update_ne (cols : List String) (cells : List Cell) (d c : String) (v : Cell)
    (hne : c ≠ d) :
    colVal cols ((cols.zip cells).map fun p => if p.1 == d then v else p.2) c
      = colVal cols cells c := by
  induction cols generalizing cells with
  | nil => rfl
  | cons a l ih =>
    cases cells with
    | nil => simp [colVal_nil_cells]
    | cons b m =>
      simp only [List.zip_cons_cons, List.map_cons, colVal_cons]
      by_cases hac : a = c
      · subst hac
        simp [show (a == d) = false by simpa using hne]
      · rw [if_neg (by simpa using hac), if_neg (by simpa using hac)]
        exact ih m

theorem colVal_update_self (cols : List String) (cells : List Cell) (d : String) (v : Cell)
    (hmem : d ∈ cols) (hlen : cells.length = cols.length) :
    colVal cols ((cols.zip cells).map fun p => if p.1 == d then v else p.2) d = some v := by
  induction cols generalizing cells with
  | nil => simp at hmem
  | cons a l ih =>
    cases cells with
    | nil => simp at hlen
    | cons b m =>
      simp only [List.zip_cons_cons, List.map_cons, colVal_cons]
      by_cases had : a = d
      · simp [had]
      · have hdl : d ∈ l := by
          rcases List.mem_cons.mp hmem with rfl | hdl
          · exact absurd rfl had
          · exact hdl
        rw [if_neg (by simpa using had)]
        exact ih m hdl (by simpa using hlen)

theorem colVal_replicate (cols : List String) (c : String) (x : Cell) (hc : c ∈ cols) :
    colVal cols (List.replicate cols.length x) c = some x := by
  induction cols with
  | nil => simp at hc
  | cons a l ih =>
    simp only [List.length_cons, List.replicate_succ, colVal_cons]
    by_cases hac : a = c
    · simp [hac]
    · have hcl : c ∈ l := by
        rcases List.mem_cons.mp hc with rfl | hcl
        · exact absurd rfl hac
        · exact hcl
      rw [if_neg (by simpa using hac)]
      exact ih hcl

/-! ### Shape of a merged table and inversion of `processFile` -/

theorem contains_eq (l : List String) (a : String) : l.contains a = true ↔ a ∈ l :=
  List.elem_iff

theorem not_mem_cols_of_guard (t : Table) (d : String)
    (h1 : (("ticker" :: t.cols).contains d) = false) : d ∉ t.cols := by
  intro hmem
  rw [(contains_eq _ _).mpr (List.mem_cons_of_mem _ hmem)] at h1
  cases h1

theorem shape_cols (t : Table) (d : String) (nts : List String) (hd : d ∉ t.cols) :
    (initDateCol (addNewRows t d nts) d).cols = t.cols ++ [d] := by
  have hcont : ¬(t.cols.contains d = true) := fun hc => hd ((contains_eq _ _).mp hc)
  by_cases hn : nts.isEmpty
  · unfold addNewRows initDateCol
    rw [if_pos hn, if_neg hcont]
  · unfold addNewRows initDateCol
    rw [if_neg hn, if_pos ((contains_eq _ _).mpr (by simp))]

theorem shape_rows (t : Table) (d : String) (nts : List String) (hd : d ∉ t.cols) :
    (initDateCol (addNewRows t d nts) d).rows =
      t.rows.map (fun r => (r.1, r.2 ++ [if nts.isEmpty then some (0 : ℚ) else none]))
        ++ nts.map (fun tk => (tk, List.replicate t.cols.length (some (0 : ℚ)) ++ [some 0])) := by
  have hcont : ¬(t.cols.contains d = true) := fun hc => hd ((contains_eq _ _).mp hc)
  by_cases hn : nts.isEmpty
  · have hnil : nts = [] := List.isEmpty_iff.mp hn
    subst hnil
    unfold addNewRows initDateCol
    simp only [List.isEmpty_nil, if_true, List.map_nil, List.append_nil]
    rw [if_neg hcont]
  · unfold addNewRows initDateCol
    rw [if_neg hn, if_pos ((contains_eq _ _).mpr (by simp))]
    simp [hn]

theorem processFile_eq (t : Table) (f : HoldingsFile) (d : String)
    (hd : extract_date_from_holdings f = some d) :
    processFile t f =
      if ("ticker" :: t.cols).contains d then .skipped
      else if !(f.hasTicker && f.hasWeight) then .skipped
      else
        match parseWeights (dropNaNTickers f.rows) with
        | none => .raised
        | some ws => mergeCore t d ws := by
  unfold processFile
  rw [hd]

theorem processFile_merged_inv (t : Table) (f : HoldingsFile) (d : String)
    (ws : List (String × ℚ)) (t' : Table)
    (hd : extract_date_from_holdings f = some d)
    (hws : parseWeights (dropNaNTickers f.rows) = some ws)
    (hm : processFile t f = .merged t') :
    (("ticker" :: t.cols).contains d) = false ∧ (ws.map Prod.fst).Nodup ∧
      t' = updateCol (initDateCol (addNewRows t d (newTickers t ws)) d) d ws := by
  rw [processFile_eq t f d hd] at hm
  by_cases h1 : (("ticker" :: t.cols).contains d) = true
  · rw [if_pos h1] at hm; exact absurd hm (by simp)
  · rw [if_neg h1] at hm
    by_cases h2 : (!(f.hasTicker && f.hasWeight)) = true
    · rw [if_pos h2] at hm; exact absurd hm (by simp)
    · rw [if_neg h2] at hm
      rw [hws] at hm
      have hm' : mergeCore t d ws = .merged t' := hm
      unfold mergeCore at hm'
      by_cases h3 : (ws.map Prod.fst).Nodup
      · rw [if_pos h3] at hm'
        injection hm' with h
        exact ⟨Bool.not_eq_true _ |>.mp h1, h3, h.symm⟩
      · rw [if_neg h3] at hm'; exact absurd hm' (by simp)

theorem processFile_no_parse (t : Table) (f : HoldingsFile) (d : String)
    (hd : extract_date_from_holdings f = some d)
    (hp : parseWeights (dropNaNTickers f.rows) = none) :
    processFile t f = .skipped ∨ processFile t f = .raised := by
  rw [processFile_eq t f d hd]
  by_cases h1 : (("ticker" :: t.cols).contains d) = true
  · left; rw [if_pos h1]
  · rw [if_neg h1]
    by_cases h2 : (!(f.hasTicker && f.hasWeight)) = true
    · left; rw [if_pos h2]
    · right; rw [if_neg h2, hp]

theorem processFile_merged_cols (t : Table) (f : HoldingsFile) (d : String) (t' : Table)
    (hd : extract_date_from_holdings f = some d)
    (hm : processFile t f = .merged t') :
    t'.cols = t.cols ++ [d] := by
  cases hp : parseWeights (dropNaNTickers f.rows) with
  | none =>
    rcases processFile_no_parse t f d hd hp with h | h <;>
      · rw [h] at hm; exact absurd hm (by simp)
  | some ws =>
    obtain ⟨h1, _, h3⟩ := processFile_merged_inv t f d ws t' hd hp hm
    rw [h3]
    exact shape_cols t d _ (not_mem_cols_of_guard t d h1)

theorem processBatch_cons (t : Table) (c : Bool) (f : HoldingsFile)
    (fs : List HoldingsFile) :
    processBatch t c (f :: fs) =
      match processFile t f with
      | .skipped => processBatch t c fs
      | .merged t' => processBatch t' true fs
      | .raised => .fatal := rfl

theorem updRow_fst (cols : List String) (d : String) (ws : List (String × ℚ))
    (r : String × List Cell) : (updRow cols d ws r).1 = r.1 := by
  unfold updRow
  cases ws.find? (fun w => w.1 == r.1) <;> rfl

theorem updRow_eq_some (cols : List String) (d : String) (ws : List (String × ℚ))
    (r : String × List Cell) (w : String × ℚ)
    (hf : ws.find? (fun x => x.1 == r.1) = some w) :
    updRow cols d ws r =
      (r.1, (cols.zip r.2).map fun p => if p.1 == d then some w.2 else p.2) := by
  unfold updRow
  rw [hf]

theorem find?_map_updRow (cols : List String) (d : String) (ws : List (String × ℚ))
    (pad : Cell) (rows : List (String × List Cell)) (tk : String) :
    (rows.map fun r => updRow cols d ws (r.1, r.2 ++ [pad])).find? (fun r => r.1 == tk)
      = (rows.find? (fun r => r.1 == tk)).map fun r => updRow cols d ws (r.1, r.2 ++ [pad]) :=
  find?_map_key tk (fun r => updRow cols d ws (r.1, r.2 ++ [pad]))
    (fun x => updRow_fst cols d ws (x.1, x.2 ++ [pad])) rows

/-- Fully decomposed shape of a successfully merged table: the columns
gain `d` at the end; the old rows gain one cell that is `0` when the
snapshot introduces no new ticker and NaN otherwise (lines 120 and
127–129), the new rows are zero-backfilled; and every row then passes
through the `update` of line 132. -/
theorem merged_shape (t : Table) (f : HoldingsFile) (d : String)
    (ws : List (String × ℚ)) (t' : Table)
    (hd : extract_date_from_holdings f = some d)
    (hws : parseWeights (dropNaNTickers f.rows) = some ws)
    (hm : processFile t f = .merged t') :
    (ws.map Prod.fst).Nodup ∧ d ∉ t.cols ∧ t'.cols = t.cols ++ [d] ∧
      t'.rows =
        t.rows.map (fun r => updRow (t.cols ++ [d]) d ws
            (r.1, r.2 ++ [if (newTickers t ws).isEmpty then some (0 : ℚ) else none]))
          ++ (newTickers t ws).map (fun s => updRow (t.cols ++ [d]) d ws
            (s, List.replicate t.cols.length (some (0 : ℚ)) ++ [some 0])) := by
  obtain ⟨h1, hnd, h3⟩ := processFile_merged_inv t f d ws t' hd hws hm
  have hdnc : d ∉ t.cols := not_mem_cols_of_guard t d h1
  refine ⟨hnd, hdnc, ?_, ?_⟩
  · rw [h3]
    exact shape_cols t d _ hdnc
  · rw [h3]
    show ((initDateCol (addNewRows t d (newTickers t ws)) d).rows.map
      (updRow (initDateCol (addNewRows t d (newTickers t ws)) d).cols d ws)) = _
    rw [shape_rows t d _ hdnc, shape_cols t d _ hdnc, List.map_append, List.map_map,
      List.map_map]
    rfl

/-! ### Digit-string lengths and parse bounds (for the date format) -/

theorem toDigitsCore_succ (b f n : ℕ) (acc : List Char) :
    Nat.toDigitsCore b (f + 1) n acc =
      if n / b = 0 then Nat.digitChar (n % b) :: acc
      else Nat.toDigitsCore b f (n / b) (Nat.digitChar (n % b) :: acc) := rfl

theorem toDigitsCore_len4 (f n : ℕ) (acc : List Char) (h4 : 4 ≤ f)
    (h1 : 1000 ≤ n) (h2 : n < 10000) :
    (Nat.toDigitsCore 10 f n acc).length = acc.length + 4 := by
  obtain ⟨f', rfl⟩ : ∃ f', f = f' + 4 := ⟨f - 4, by omega⟩
  have d1 : ¬n / 10 = 0 := by omega
  have d2 : ¬n / 10 / 10 = 0 := by omega
  have d3 : ¬n / 10 / 10 / 10 = 0 := by omega
  have d4 : n / 10 / 10 / 10 / 10 = 0 := by omega
  rw [show f' + 4 = f' + 3 + 1 from rfl, toDigitsCore_succ, if_neg d1,
    show f' + 3 = f' + 2 + 1 from rfl, toDigitsCore_succ, if_neg d2,
    show f' + 2 = f' + 1 + 1 from rfl, toDigitsCore_succ, if_neg d3,
    toDigitsCore_succ, if_pos d4]
  simp only [List.length_cons]

theorem repr_len_four (y : ℕ) (h1 : 1000 ≤ y) (h2 : y ≤ 9999) :
    (Nat.repr y).length = 4 := by
  show (Nat.toDigits 10 y).asString.length = 4
  show (Nat.toDigitsCore 10 (y + 1) y []).length = 4
  rw [toDigitsCore_len4 (y + 1) y [] (by omega) h1 (by omega)]
  rfl

theorem repr_len_one : ∀ n < 10, (Nat.repr n).length = 1 := by decide

theorem repr_len_two : ∀ n < 100, 10 ≤ n → (Nat.repr n).length = 2 := by decide

theorem pad2_length (n : ℕ) (h : n ≤ 31) : (pad2 n).length = 2 := by
  unfold pad2
  by_cases hn : n < 10
  · rw [if_pos hn, String.length_append, repr_len_one n hn]
    rfl
  · rw [if_neg hn]
    exact repr_len_two n (by omega) (by omega)

theorem format_length (m d y : ℕ) (hm : m ≤ 31) (hd : d ≤ 31)
    (h1 : 1000 ≤ y) (h2 : y ≤ 9999) : (formatYYYYMMDD m d y).length = 8 := by
  unfold formatYYYYMMDD
  rw [String.length_append, String.length_append, repr_len_four y h1 h2,
    pad2_length m hm, pad2_length d hd]

theorem foldl_digits_lt :
    ∀ (cs : List Char), cs.all Char.isDigit = true →
      ∀ a : ℕ, cs.foldl (fun a c => 10 * a + (c.toNat - 48)) a < (a + 1) * 10 ^ cs.length
  | [], _, a => by simp
  | c :: cs, h, a => by
    rw [List.all_cons, Bool.and_eq_true] at h
    have hc : c.toNat - 48 ≤ 9 := by
      have h1 := h.1
      simp [Char.isDigit] at h1
      have hub : c.val.toNat ≤ 57 := by exact_mod_cast h1.2
      simp only [Char.toNat]
      omega
    have hrec := foldl_digits_lt cs h.2 (10 * a + (c.toNat - 48))
    rw [List.foldl_cons]
    refine lt_of_lt_of_le hrec ?_
    have hstep : 10 * a + (c.toNat - 48) + 1 ≤ (a + 1) * 10 := by omega
    calc (10 * a + (c.toNat - 48) + 1) * 10 ^ cs.length
        ≤ (a + 1) * 10 * 10 ^ cs.length := Nat.mul_le_mul_right _ hstep
      _ = (a + 1) * 10 ^ (c :: cs).length := by
          rw [List.length_cons, pow_succ]; ring

theorem digitsToNat_lt (cs : List Char) (h : cs.all Char.isDigit = true) :
    digitsToNat cs < 10 ^ cs.length := by
  have := foldl_digits_lt cs h 0
  simpa [digitsToNat] using this

theorem charsToNat?_lt (cs : List Char) (n : ℕ) (h : charsToNat? cs = some n) :
    n < 10 ^ cs.length := by
  unfold charsToNat? at h
  split at h
  · rename_i hcond
    injection h with h'
    subst h'
    exact digitsToNat_lt cs hcond.2
  · cases h

theorem daysInMonth_le (y m : ℕ) : daysInMonth y m ≤ 31 := by
  unfold daysInMonth
  split
  · split <;> omega
  · split <;> omega

theorem parseMMDDYYYY_bounds (s : String) (m d y : ℕ)
    (hp : parseMMDDYYYY s = some (m, d, y)) :
    1 ≤ m ∧ m ≤ 12 ∧ 1 ≤ d ∧ d ≤ 31 ∧ 1 ≤ y ∧ y ≤ 9999 := by
  unfold parseMMDDYYYY at hp
  split at hp
  · rename_i ms ds ys
    split at hp
    · rename_i hlens
      split at hp
      · rename_i m' d' y' hms hds hys
        split at hp
        · rename_i hbounds
          injection hp with h'
          injection h' with h1 h23
          injection h23 with h2 h3
          subst h1; subst h2; subst h3
          refine ⟨hbounds.1, hbounds.2.1, hbounds.2.2.1,
            le_trans hbounds.2.2.2.1 (daysInMonth_le _ _), hbounds.2.2.2.2, ?_⟩
          have hlt := charsToNat?_lt _ _ hys
          rw [hlens.2.2.2.2] at hlt
          omega
        · cases hp
      · cases hp
    · cases hp
  · cases hp

/-! ### The claims -/

/-- C7: merging a new snapshot never alters the values of previously
existing date columns for previously existing tickers — for every
successful merge, every pre-existing ticker keeps its old value in every
pre-existing date column (only the new date column and newly inserted
rows differ). -/
theorem C7_conservation_of_history (t : Table) (f : HoldingsFile) (d : String)
    (ws : List (String × ℚ)) (t' : Table) (tk c : String)
    (hlen : ∀ r ∈ t.rows, r.2.length = t.cols.length)
    (hd : extract_date_from_holdings f = some d)
    (hws : parseWeights (dropNaNTickers f.rows) = some ws)
    (hm : processFile t f = .merged t')
    (htk : tk ∈ t.tickers) (hc : c ∈ t.cols) :
    t'.value tk c = t.value tk c := by
  obtain ⟨hnd, hdnc, hcols, hrows⟩ := merged_shape t f d ws t' hd hws hm
  obtain ⟨r, hr1, hr2, hr3⟩ := find?_of_mem_key tk t.rows htk
  have hne : c ≠ d := fun h => hdnc (h ▸ hc)
  have hrl : r.2.length = t.cols.length := hlen r hr2
  unfold Table.value
  rw [hrows, hcols, List.find?_append, find?_map_updRow, hr1]
  show (colVal (t.cols ++ [d])
      (updRow (t.cols ++ [d]) d ws
        (r.1, r.2 ++ [if (newTickers t ws).isEmpty then some (0 : ℚ) else none])).2 c) =
    colVal t.cols r.2 c
  unfold updRow
  cases hfind : ws.find? (fun w => w.1 == r.1) with
  | none =>
    show colVal (t.cols ++ [d]) (r.2 ++ [_]) c = colVal t.cols r.2 c
    exact colVal_append_left t.cols [d] r.2 _ c hrl.symm hc
  | some w =>
    show colVal (t.cols ++ [d])
        (((t.cols ++ [d]).zip (r.2 ++ [_])).map fun p => if p.1 == d then some w.2 else p.2) c
      = colVal t.cols r.2 c
    rw [colVal_update_ne _ _ d c _ hne]
    exact colVal_append_left t.cols [d] r.2 _ c hrl.symm hc

/-- C8: a ticker first introduced by the snapshot for date column `d`
is appended with `0` in every date column that existed before the merge
and with the snapshot's observed weight in column `d`. -/
theorem C8_new_ticker_backfill (t : Table) (f : HoldingsFile) (d : String)
    (ws : List (String × ℚ)) (t' : Table) (tk : String) (q : ℚ) (c : String)
    (hd : extract_date_from_holdings f = some d)
    (hws : parseWeights (dropNaNTickers f.rows) = some ws)
    (hm : processFile t f = .merged t')
    (hmemw : (tk, q) ∈ ws) (hnew : tk ∉ t.tickers) (hc : c ∈ t.cols) :
    t'.value tk c = some (some 0) ∧ t'.value tk d = some (some q) := by
  obtain ⟨hnd, hdnc, hcols, hrows⟩ := merged_shape t f d ws t' hd hws hm
  have htknts : tk ∈ newTickers t ws := by
    unfold newTickers
    rw [List.mem_filter]
    refine ⟨List.mem_dedup.mpr (List.mem_map.mpr ⟨(tk, q), hmemw, rfl⟩), ?_⟩
    cases hcontains : t.tickers.contains tk with
    | false => rfl
    | true => exact absurd ((contains_eq _ _).mp hcontains) hnew
  have hnone : (t.rows.map fun r => updRow (t.cols ++ [d]) d ws
      (r.1, r.2 ++ [if (newTickers t ws).isEmpty then some (0 : ℚ) else none])).find?
        (fun r => r.1 == tk) = none := by
    rw [find?_map_updRow, find?_none_of_not_mem tk t.rows hnew]
    rfl
  have hfound := find?_map_single (newTickers t ws)
    (fun s => updRow (t.cols ++ [d]) d ws
      (s, List.replicate t.cols.length (some (0 : ℚ)) ++ [some 0]))
    (fun s => updRow_fst _ _ _ _) tk htknts
  have hwfind : ws.find? (fun x => x.1 ==
      ((tk, List.replicate t.cols.length (some (0 : ℚ)) ++ [some 0]) :
        String × List Cell).1) = some (tk, q) :=
    find?_eq_of_nodup ws tk q hnd hmemw
  have hupd := updRow_eq_some (t.cols ++ [d]) d ws
    (tk, List.replicate t.cols.length (some (0 : ℚ)) ++ [some 0]) (tk, q) hwfind
  constructor
  · unfold Table.value
    rw [hrows, hcols, List.find?_append, hnone, hfound]
    show colVal (t.cols ++ [d]) (updRow (t.cols ++ [d]) d ws
      (tk, List.replicate t.cols.length (some (0 : ℚ)) ++ [some 0])).2 c = some (some 0)
    rw [hupd]
    show colVal (t.cols ++ [d])
        (((t.cols ++ [d]).zip (List.replicate t.cols.length (some (0 : ℚ)) ++ [some 0])).map
          fun p => if p.1 == d then some q else p.2) c = some (some 0)
    rw [colVal_update_ne _ _ d c _ (fun h => hdnc (h ▸ hc)),
      colVal_append_left t.cols [d] _ [some 0] c (by simp) hc,
      colVal_replicate t.cols c (some 0) hc]
  · unfold Table.value
    rw [hrows, hcols, List.find?_append, hnone, hfound]
    show colVal (t.cols ++ [d]) (updRow (t.cols ++ [d]) d ws
      (tk, List.replicate t.cols.length (some (0 : ℚ)) ++ [some 0])).2 d = some (some q)
    rw [hupd]
    show colVal (t.cols ++ [d])
        (((t.cols ++ [d]).zip (List.replicate t.cols.length (some (0 : ℚ)) ++ [some 0])).map
          fun p => if p.1 == d then some q else p.2) d = some (some q)
    exact colVal_update_self (t.cols ++ [d]) _ d (some q) (by simp) (by simp)

/-- Witness for `C7_conservation_of_history` at `tAM` and `fOld`. -/
theorem C7_conservation_of_history_witness :
    tAM'.value "AAPL" "20250101" = tAM.value "AAPL" "20250101" :=
  C7_conservation_of_history tAM fOld "20250102" [("AAPL", mkRat 9 2)] tAM'
    "AAPL" "20250101" (by decide) (by decide) (by decide) (by decide)
    (by decide) (by decide)

/-- Witness for `C8_new_ticker_backfill`: TSLA enters on `20250102`. -/
theorem C8_new_ticker_backfill_witness :
    tNew'.value "TSLA" "20250101" = some (some 0) ∧
      tNew'.value "TSLA" "20250102" = some (some 2) :=
  C8_new_ticker_backfill tAM fNew "20250102" [("AAPL", mkRat 9 2), ("TSLA", 2)]
    tNew' "TSLA" 2 "20250101" (by decide) (by decide) (by decide) (by decide)
    (by decide) (by decide)

/-- C1: the spec claims that in every merge the new date column holds
`0` for each ticker present in the table but absent from the snapshot,
including when the same snapshot introduces new tickers.  The code
violates this (and its own comment at line 127): when the snapshot
introduces a new ticker (TSLA), `pd.concat` (line 120) already creates
the new column, the zero initialization (lines 128–129) is skipped, and
the absent pre-existing ticker MSFT is left with a NaN cell. -/
theorem C1_absent_ticker_gets_null :
    (mergedTable (processFile tAM fNew)).map (fun u => u.value "MSFT" "20250102")
        = some (some none) ∧
      (mergedTable (processFile tAM fNew)).map (fun u => u.value "MSFT" "20250102")
        ≠ some (some (some 0)) ∧
      "MSFT" ∈ tAM.tickers ∧
      "MSFT" ∉ (dropNaNTickers fNew.rows).map Prod.fst := by
  decide

/-- C6: the spec claims every successful merge leaves every cell
non-null.  Merging `fNew` into the all-populated `tAM` succeeds but
leaves MSFT's `20250102` cell NaN (same root cause as C1). -/
theorem C6_rectangularity_violated :
    tAM.noNulls = true ∧
      (mergedTable (processFile tAM fNew)).map Table.noNulls = some false := by
  decide

/-- C2 counterexample: a snapshot with the non-numeric weight `"abc"`
does not get skipped with the batch continuing — the whole run aborts
as fatal, although the same batch without the bad file saves fine. -/
theorem C2_counterexample :
    merge_holdings_data (.ok tAM) [fBad, fOld] = .fatal ∧
      (merge_holdings_data (.ok tAM) [fOld]).isSaved = true := by
  decide

/-- C2 (amended): a weight value that is not numeric after stripping
the trailing `%` raises the uncaught `astype(float)` exception (line
98): the step raises, the whole batch aborts as fatal — remaining files
are not processed and nothing is saved — and the process exits 1. -/
theorem C2_parse_failure_aborts (t : Table) (c : Bool) (f : HoldingsFile)
    (fs : List HoldingsFile) (d : String)
    (hd : extract_date_from_holdings f = some d)
    (hnew : (("ticker" :: t.cols).contains d) = false)
    (ht : f.hasTicker = true) (hw : f.hasWeight = true)
    (hbad : parseWeights (dropNaNTickers f.rows) = none) :
    processFile t f = .raised ∧ processBatch t c (f :: fs) = .fatal ∧
      exitCode (processBatch t c (f :: fs)) = 1 := by
  have hpf : processFile t f = .raised := by
    rw [processFile_eq t f d hd, if_neg (by rw [hnew]; exact Bool.false_ne_true),
      if_neg (by simp [ht, hw]), hbad]
  have hb : processBatch t c (f :: fs) = .fatal := by
    unfold processBatch
    rw [hpf]
  exact ⟨hpf, hb, by rw [hb]; rfl⟩

/-- Witness for `C2_parse_failure_aborts` at `tAM`, `fBad`. -/
theorem C2_parse_failure_aborts_witness :
    processFile tAM fBad = .raised ∧ processBatch tAM false [fBad, fOld] = .fatal ∧
      exitCode (processBatch tAM false [fBad, fOld]) = 1 :=
  C2_parse_failure_aborts tAM false fBad [fOld] "20250102" (by decide) (by decide)
    (by decide) (by decide) (by decide)

/-- C3 counterexample: a run that correctly determines no changes are
needed (the only snapshot's date column `20250101` already exists in
the table) exits with code 1, not 0 as the claim requires. -/
theorem C3_counterexample :
    extract_date_from_holdings fSame = some "20250101" ∧
      "20250101" ∈ tAM.cols ∧
      exitCode (merge_holdings_data (.ok tAM) [fSame]) = 1 := by
  decide

/-- C3 (amended): the exit code is 0 exactly when at least one snapshot
was merged and the table was saved; every other outcome — a missing
table, no snapshot files, an unrecoverable exception, but also a run
that correctly determined no changes were needed — exits 1. -/
theorem C3_exit_zero_iff_saved (t : Table) (files : List HoldingsFile)
    (tf : TableFile) (fs : List HoldingsFile)
    (hall : ∀ f ∈ files, processFile t f = .skipped) :
    exitCode (merge_holdings_data (.ok t) files) = 1 ∧
      (exitCode (merge_holdings_data tf fs) = 0 ↔
        (merge_holdings_data tf fs).isSaved = true) := by
  constructor
  · unfold merge_holdings_data
    show exitCode (if files.isEmpty then .noFiles else processBatch t false files) = 1
    by_cases hf : files.isEmpty
    · rw [if_pos hf]; rfl
    · rw [if_neg hf]
      have hskip : ∀ l : List HoldingsFile, (∀ f ∈ l, processFile t f = .skipped) →
          processBatch t false l = .noChanges t := by
        intro l
        induction l with
        | nil => intro _; rfl
        | cons g gs ih =>
          intro hl
          show processBatch t false (g :: gs) = _
          unfold processBatch
          rw [hl g (List.mem_cons_self g gs)]
          exact ih fun x hx => hl x (List.mem_cons_of_mem _ hx)
      rw [hskip files hall]
      rfl
  · cases h : merge_holdings_data tf fs <;>
      simp [exitCode, RunOutcome.isSaved]

/-- Witness for `C3_exit_zero_iff_saved` at `tAM`. -/
theorem C3_exit_zero_iff_saved_witness :
    exitCode (merge_holdings_data (.ok tAM) [fSame]) = 1 ∧
      (exitCode (merge_holdings_data (.ok tAM) [fOld]) = 0 ↔
        (merge_holdings_data (.ok tAM) [fOld]).isSaved = true) :=
  C3_exit_zero_iff_saved tAM [fSame] (.ok tAM) [fOld] (by decide)

/-- C4: when the snapshot's target date column already exists in the
table the merge of that snapshot is a no-op (`skipped`); in particular
a just-merged table skips the same snapshot, so merging the same
snapshot twice produces a table identical to merging it once. -/
theorem C4_duplicate_date_idempotent (t₁ t₂ t₂' : Table) (f₁ f₂ : HoldingsFile)
    (d₁ : String) (fs : List HoldingsFile)
    (hd₁ : extract_date_from_holdings f₁ = some d₁) (hin : d₁ ∈ t₁.cols)
    (hm : processFile t₂ f₂ = .merged t₂') :
    processFile t₁ f₁ = .skipped ∧ processFile t₂' f₂ = .skipped ∧
      processBatch t₂' true (f₂ :: fs) = processBatch t₂' true fs := by
  have part1 : processFile t₁ f₁ = .skipped := by
    rw [processFile_eq t₁ f₁ d₁ hd₁,
      if_pos ((contains_eq _ _).mpr (List.mem_cons_of_mem _ hin))]
  have hd₂ : ∃ d₂, extract_date_from_holdings f₂ = some d₂ := by
    cases hx : extract_date_from_holdings f₂ with
    | none =>
      exfalso
      have hm' : StepResult.skipped = StepResult.merged t₂' := by
        rw [← hm]
        unfold processFile
        rw [hx]
      cases hm'
    | some d => exact ⟨d, rfl⟩
  obtain ⟨d₂, hx⟩ := hd₂
  have hcols := processFile_merged_cols t₂ f₂ d₂ t₂' hx hm
  have part2 : processFile t₂' f₂ = .skipped := by
    rw [processFile_eq t₂' f₂ d₂ hx,
      if_pos ((contains_eq _ _).mpr (List.mem_cons_of_mem _ (by rw [hcols]; simp)))]
  refine ⟨part1, part2, ?_⟩
  rw [processBatch_cons, part2]

/-- Witness for `C4_duplicate_date_idempotent`. -/
theorem C4_duplicate_date_idempotent_witness :
    processFile tAM fSame = .skipped ∧ processFile tAM' fOld = .skipped ∧
      processBatch tAM' true [fOld] = processBatch tAM' true [] :=
  C4_duplicate_date_idempotent tAM tAM tAM' fSame fOld "20250101" []
    (by decide) (by decide) (by decide)

/-- C5 counterexample: a snapshot reporting AMD twice does not complete
with last-write-wins; the merge step raises (pandas `update` rejects a
duplicate index on its argument) and the whole run aborts as fatal. -/
theorem C5_counterexample :
    (dropNaNTickers fDup.rows).map Prod.fst = ["AMD", "AMD"] ∧
      processFile tAM fDup = .raised ∧
      merge_holdings_data (.ok tAM) [fDup] = .fatal := by
  decide

/-- C5 (amended): when a snapshot reports the same ticker more than
once, the merge of that snapshot does not complete: `DataFrame.update`
(line 132) raises on the duplicate index, and the whole run aborts. -/
theorem C5_duplicate_ticker_raises (t : Table) (c : Bool) (f : HoldingsFile)
    (fs : List HoldingsFile) (d : String) (ws : List (String × ℚ))
    (hd : extract_date_from_holdings f = some d)
    (hnew : (("ticker" :: t.cols).contains d) = false)
    (ht : f.hasTicker = true) (hw : f.hasWeight = true)
    (hws : parseWeights (dropNaNTickers f.rows) = some ws)
    (hdup : ¬(ws.map Prod.fst).Nodup) :
    processFile t f = .raised ∧ processBatch t c (f :: fs) = .fatal := by
  have hpf : processFile t f = .raised := by
    rw [processFile_eq t f d hd, if_neg (by rw [hnew]; exact Bool.false_ne_true),
      if_neg (by simp [ht, hw]), hws]
    show mergeCore t d ws = .raised
    unfold mergeCore
    rw [if_neg hdup]
  refine ⟨hpf, ?_⟩
  unfold processBatch
  rw [hpf]

/-- Witness for `C5_duplicate_ticker_raises` at `tAM`, `fDup`. -/
theorem C5_duplicate_ticker_raises_witness :
    processFile tAM fDup = .raised ∧ processBatch tAM false [fDup] = .fatal :=
  C5_duplicate_ticker_raises tAM false fDup [] "20250102" [("AMD", 1), ("AMD", 2)]
    (by decide) (by decide) (by decide) (by decide) (by decide) (by decide)

/-- Rows whose ticker cell is NaN are removed by the filter of line 95
before anything else looks at them. -/
theorem dropNaN_filter (rows : List (Option String × String)) :
    dropNaNTickers (rows.filter fun r => r.1.isSome) = dropNaNTickers rows := by
  induction rows with
  | nil => rfl
  | cons r rs ih =>
    cases hr : r.1 with
    | none =>
      have h1 : (r :: rs).filter (fun r => r.1.isSome) = rs.filter fun r => r.1.isSome := by
        rw [List.filter_cons, hr]
        rfl
      have h2 : dropNaNTickers (r :: rs) = dropNaNTickers rs := by
        unfold dropNaNTickers
        rw [List.filterMap_cons, hr]
        rfl
      rw [h1, h2, ih]
    | some tk =>
      have h1 : (r :: rs).filter (fun r => r.1.isSome) =
          r :: rs.filter fun r => r.1.isSome := by
        rw [List.filter_cons, hr]
        rfl
      have h2 : ∀ l, dropNaNTickers (r :: l) = (tk, r.2) :: dropNaNTickers l := by
        intro l
        unfold dropNaNTickers
        rw [List.filterMap_cons, hr]
        rfl
      rw [h1, h2, h2, ih]

/-- C10: rows whose ticker field is missing (NaN) are silently dropped
before merging — processing a snapshot is identical to processing the
same snapshot with those rows removed, so they never produce a table
row, never contribute a weight, and never cause the step or batch to
fail. -/
theorem C10_nan_tickers_dropped (t : Table) (f : HoldingsFile) :
    processFile t f =
      processFile t ⟨f.dateField, f.hasTicker, f.hasWeight,
        f.rows.filter fun r => r.1.isSome⟩ := by
  obtain ⟨df, ht, hw, rows⟩ := f
  unfold processFile extract_date_from_holdings
  simp only [dropNaN_filter]

/-- C9: a snapshot file whose first data row carries a `date` field
that parses in `MM/DD/YYYY` form (with a four-digit year of full
length, `1000 ≤ y`) yields the canonical eight-character `YYYYMMDD`
column name; a file whose date field is absent or unparsable yields no
date, and the batch driver skips it, leaving the table untouched. -/
theorem C9_date_extraction (f g : HoldingsFile) (s : String) (m dd y : ℕ)
    (t : Table) (c : Bool) (fs : List HoldingsFile)
    (hs : f.dateField = some s) (hp : parseMMDDYYYY s = some (m, dd, y))
    (hy : 1000 ≤ y)
    (hg : extract_date_from_holdings g = none) :
    extract_date_from_holdings f = some (formatYYYYMMDD m dd y) ∧
      (formatYYYYMMDD m dd y).length = 8 ∧
      processBatch t c (g :: fs) = processBatch t c fs := by
  obtain ⟨h1, h2, h3, h4, h5, h6⟩ := parseMMDDYYYY_bounds s m dd y hp
  refine ⟨?_, format_length m dd y (by omega) h4 hy h6, ?_⟩
  · unfold extract_date_from_holdings
    rw [hs]
    show (match parseMMDDYYYY s with
      | none => none
      | some (m, d, y) => some (formatYYYYMMDD m d y)) = some (formatYYYYMMDD m dd y)
    rw [hp]
  · have hskip : processFile t g = .skipped := by
      unfold processFile
      rw [hg]
    rw [processBatch_cons, hskip]

/-- Witness for `C9_date_extraction` at `fOld` and `fNoDate`. -/
theorem C9_date_extraction_witness :
    extract_date_from_holdings fOld = some (formatYYYYMMDD 1 2 2025) ∧
      (formatYYYYMMDD 1 2 2025).length = 8 ∧
      processBatch tAM false [fNoDate, fOld] = processBatch tAM false [fOld] :=
  C9_date_extraction fOld fNoDate "01/02/2025" 1 2 2025 tAM false [fOld]
    (by decide) (by decide) (by decide) (by decide)

end ArkkMerge
